import Mathlib

/-!
# EvoNEST data-science pipeline: a shallow embedding

Definitions translated from `src/python/process_mechanical_data.py`
(curve cleaning, fracture detection, trimming, degree-1 polynomial fit)
and `src/python/analyse_outliers.py` (group statistics, sigma-band
outlier detection, outlier-experiment identification), together with
theorems settling the frozen claims about them.

Numeric values are embedded as `ℚ` (the scripts use Python/numpy floats;
none of the claims turns on rounding).  The one non-rational quantity,
the standard deviation `sqrt(variance)`, is embedded as a real number
derived from the rational variance.
-/

/-! ## List helpers

numpy reductions used by the scripts: `np.mean`, `np.max`, `np.min`,
`np.argmax` / `np.argmin` (first occurrence of the extremum). -/

/-- Arithmetic mean, `np.mean` / `pandas.Series.mean`; `[] ↦ 0/0 = 0`. -/
def mean (l : List ℚ) : ℚ := l.sum / l.length

/-- Maximum of a list, `np.max`; 0 on the empty list (the scripts only
apply it to nonempty arrays; numpy raises there). -/
def maxOf (l : List ℚ) : ℚ :=
  match l with
  | [] => 0
  | x :: xs => xs.foldl max x

/-- Minimum of a list, `np.min`; 0 on the empty list. -/
def minOf (l : List ℚ) : ℚ :=
  match l with
  | [] => 0
  | x :: xs => xs.foldl min x

/-- Index of the first occurrence of `m` in `l` (length of `l` when
absent) — the first-occurrence convention of `np.argmax`/`np.argmin`. -/
def firstIdxOf : List ℚ → ℚ → ℕ
  | [], _ => 0
  | x :: xs, m => if x = m then 0 else firstIdxOf xs m + 1

/-- `np.argmax`: index of the first occurrence of the maximum value. -/
def argmaxIdx (l : List ℚ) : ℕ := firstIdxOf l (maxOf l)

/-- `np.argmin(np.abs(l))`: index of the first occurrence of the minimal
absolute value. -/
def argminAbsIdx (l : List ℚ) : ℕ := firstIdxOf (l.map abs) (minOf (l.map abs))

lemma foldl_max_le_self (l : List ℚ) (a : ℚ) : a ≤ l.foldl max a := by
  induction l generalizing a with
  | nil => exact le_refl a
  | cons x xs ih => exact le_trans (le_max_left a x) (ih (max a x))

lemma le_foldl_max_of_mem {l : List ℚ} {b : ℚ} (a : ℚ) (h : b ∈ l) :
    b ≤ l.foldl max a := by
  induction l generalizing a with
  | nil => cases h
  | cons x xs ih =>
    rcases List.mem_cons.mp h with hb | hb
    · subst hb
      exact le_trans (le_max_right a b) (foldl_max_le_self xs (max a b))
    · exact ih (max a x) hb

lemma foldl_max_choice (l : List ℚ) (a : ℚ) :
    l.foldl max a = a ∨ l.foldl max a ∈ l := by
  induction l generalizing a with
  | nil => exact Or.inl rfl
  | cons x xs ih =>
    rcases ih (max a x) with h | h
    · rcases max_choice a x with hc | hc
      · exact Or.inl (by rw [List.foldl_cons, h, hc])
      · exact Or.inr (by rw [List.foldl_cons, h, hc]; exact List.mem_cons_self x xs)
    · exact Or.inr (List.mem_cons_of_mem x h)

lemma le_maxOf {l : List ℚ} {b : ℚ} (h : b ∈ l) : b ≤ maxOf l := by
  cases l with
  | nil => cases h
  | cons x xs =>
    rcases List.mem_cons.mp h with hb | hb
    · subst hb; exact foldl_max_le_self xs b
    · exact le_foldl_max_of_mem x hb

lemma maxOf_mem {l : List ℚ} (h : l ≠ []) : maxOf l ∈ l := by
  cases l with
  | nil => exact absurd rfl h
  | cons x xs =>
    rcases foldl_max_choice xs x with hc | hc
    · rw [maxOf, hc]; exact List.mem_cons_self x xs
    · exact List.mem_cons_of_mem x hc

lemma firstIdxOf_lt_length {l : List ℚ} {m : ℚ} (h : m ∈ l) :
    firstIdxOf l m < l.length := by
  induction l with
  | nil => cases h
  | cons x xs ih =>
    by_cases hx : x = m
    · simp [firstIdxOf, hx]
    · have hm : m ∈ xs := by
        rcases List.mem_cons.mp h with hb | hb
        · exact absurd hb.symm hx
        · exact hb
      simpa [firstIdxOf, hx] using Nat.succ_lt_succ (ih hm)

lemma getD_firstIdxOf {l : List ℚ} {m : ℚ} (h : m ∈ l) :
    l.getD (firstIdxOf l m) 0 = m := by
  induction l with
  | nil => cases h
  | cons x xs ih =>
    by_cases hx : x = m
    · simp [firstIdxOf, hx]
    · have hm : m ∈ xs := by
        rcases List.mem_cons.mp h with hb | hb
        · exact absurd hb.symm hx
        · exact hb
      simpa [firstIdxOf, hx] using ih hm

lemma getD_mem_of_lt {l : List ℚ} {j : ℕ} (h : j < l.length) :
    l.getD j 0 ∈ l := by
  rw [List.getD_eq_getElem _ _ h]
  exact List.getElem_mem h

/-! ## CurveTrimmer / ExperimentProcessor
(`process_mechanical_data.py`, class `MechanicalDataProcessor`) -/

/-- Fracture-detection and processing configuration
(`config['fracture_detection']`; `polynomial_degree` is fixed at 1 here,
the degree every claim concerns). -/
structure Config where
  stop_max_stress : Bool
  drop_threshold : ℚ
  min_points : ℕ

/-- A raw experiment: the `values` arrays of `rawData.EngineeringStrain`
and `rawData.EngineeringStress`, optional-valued entries (`None` ↦
`none`).  Metadata fields are strings the claims never touch and are
not embedded. -/
structure RawExperiment where
  strainRaw : List (Option ℚ)
  stressRaw : List (Option ℚ)

/-- Pairwise null removal of `extract_stress_strain_data`: the loop
`for i in range(min(len(strain_data), len(stress_data)))` keeps index
`i` exactly when both entries are non-null, appending to both cleaned
arrays. -/
def cleanPairs : List (Option ℚ) → List (Option ℚ) → List ℚ × List ℚ
  | some x :: xs, some y :: ys =>
    ((cleanPairs xs ys).1.cons x, (cleanPairs xs ys).2.cons y)
  | _ :: xs, _ :: ys => cleanPairs xs ys
  | _, _ => ([], [])

/-- The scan `for i in range(start, stop): if stress[i] < cut: return i`
of `detect_fracture_point`, iterating over the elements
`stress[start:stop]` while carrying the running index. -/
def firstBelow (cut : ℚ) : List ℚ → ℕ → Option ℕ
  | [], _ => none
  | x :: xs, i => if x < cut then some i else firstBelow cut xs (i + 1)

/-- `detect_fracture_point(strain, stress)` (the `strain` argument is
unused by the code): `None` when `len(stress) < min_points + 10`; the
first-occurrence `np.argmax` index in stop-at-max mode; otherwise the
first index in `range(max_stress_idx, len(stress) - min_points)` whose
stress is below `max_stress * (1 - drop_threshold)`, or `None`. -/
def detectFracture (cfg : Config) (stress : List ℚ) : Option ℕ :=
  if stress.length < cfg.min_points + 10 then none
  else
    let mi := argmaxIdx stress
    let mx := stress.getD mi 0
    if cfg.stop_max_stress then some mi
    else
      firstBelow (mx * (1 - cfg.drop_threshold))
        ((stress.drop mi).take (stress.length - cfg.min_points - mi)) mi

/-- The `trim_info` dictionary of `trim_curve_to_fracture`. -/
structure TrimInfo where
  original_points : ℕ
  trimmed_points : ℕ
  zero_strain_idx : ℕ
  fracture_idx : Option ℕ
  fracture_detected : Bool
  strain_range : ℚ × ℚ
  stress_range : ℚ × ℚ
  max_stress : ℚ
deriving DecidableEq

/-- `trim_curve_to_fracture(strain, stress)`: `None` on empty input;
`zero_strain_idx = np.argmin(np.abs(strain))`; the end index is the
fracture index when detected, else `len(strain)`; both arrays are
sliced `[zero_strain_idx:end_idx]` (the Python slice excludes
`end_idx`).  An empty trimmed array makes `trimmed_strain.min()` raise
`ValueError`, which the caller catches and turns into `None`; that path
is the final `none` branch here. -/
def trimCurve (cfg : Config) (strain stress : List ℚ) :
    Option (List ℚ × List ℚ × TrimInfo) :=
  if strain.length = 0 ∨ stress.length = 0 then none
  else
    let z := argminAbsIdx strain
    let fr := detectFracture cfg stress
    let endIdx := match fr with
      | none => strain.length
      | some i => i
    let ts := (strain.take endIdx).drop z
    let tt := (stress.take endIdx).drop z
    if ts.length = 0 ∨ tt.length = 0 then none
    else
      some (ts, tt,
        { original_points := strain.length
          trimmed_points := ts.length
          zero_strain_idx := z
          fracture_idx := fr
          fracture_detected := fr.isSome
          strain_range := (minOf ts, maxOf ts)
          stress_range := (minOf tt, maxOf tt)
          max_stress := maxOf tt })

/-- `extract_stress_strain_data(experiment)`: pairwise null removal,
the emptiness check, then trimming; `None` propagates. -/
def extract (cfg : Config) (e : RawExperiment) :
    Option (List ℚ × List ℚ × TrimInfo) :=
  let c := cleanPairs e.strainRaw e.stressRaw
  if c.1.length = 0 ∨ c.2.length = 0 then none
  else trimCurve cfg c.1 c.2

/-- The trimmed strain array an experiment yields (empty when
extraction fails); its length is the quantity
`fit_polynomial_to_experiment` tests against the 10-point floor, and
its min/max span numpy's fit domain. -/
def trimmedStrain (cfg : Config) (e : RawExperiment) : List ℚ :=
  match extract cfg e with
  | none => []
  | some (s, _, _) => s

/-! ## PolynomialFitter
(`fit_polynomial_to_experiment`, using `numpy.polynomial.Polynomial.fit`
with the configured degree; every claim concerns degree 1, the default,
so the least-squares fit is embedded at that degree, where the
full-rank solution is given by the centred normal equations.) -/

/-- numpy's `Polynomial.fit` domain map: the fit domain defaults to
`[x.min(), x.max()]` and is mapped linearly onto the window `[-1, 1]`
before fitting (`polyutils.mapdomain`). -/
def domMap (s : List ℚ) (x : ℚ) : ℚ :=
  -1 + 2 * (x - minOf s) / (maxOf s - minOf s)

/-- Degree-1 least squares of `Polynomial.fit(strain, stress, 1)`:
ordinary least squares on the window-mapped abscissae.  The result is
the pair `p.coef` — coefficients in ascending degree OF THE WINDOW
VARIABLE, i.e. in numpy's scaled basis, exactly what the script stores
as `polynomial_coefficients` (the code never calls `p.convert()`). -/
def polyfitDeg1 (s t : List ℚ) : ℚ × ℚ :=
  let w := s.map (domMap s)
  let wbar := mean w
  let ybar := mean t
  let sxy := ((w.zip t).map (fun p => (p.1 - wbar) * (p.2 - ybar))).sum
  let sww := (w.map (fun x => (x - wbar) ^ 2)).sum
  let c1 := sxy / sww
  (ybar - c1 * wbar, c1)

/-- Evaluation `p(x)` of the fitted polynomial: numpy maps `x` through
the domain map and evaluates the window-basis coefficients. -/
def predict (s t : List ℚ) (x : ℚ) : ℚ :=
  (polyfitDeg1 s t).1 + (polyfitDeg1 s t).2 * domMap s x

/-- `np.sum((stress - p(strain))**2)`, the residual sum of squares. -/
def sseOf (s t : List ℚ) : ℚ :=
  ((s.zip t).map (fun p => (p.2 - predict s t p.1) ^ 2)).sum

/-- `np.sum((stress - stress.mean())**2)`, the total sum of squares. -/
def sstOf (t : List ℚ) : ℚ :=
  (t.map (fun y => (y - mean t) ^ 2)).sum

/-- A float that is either an ordinary (rational) value or the
non-finite result of dividing by zero.  `r_squared = 1 - SSE/SST` with
`SST = 0` is a float division by zero: numpy emits a warning and
produces `nan`/`inf`, it does not raise. -/
inductive FVal where
  | nan : FVal
  | val : ℚ → FVal
deriving DecidableEq

/-- `r_squared = 1 - np.sum((stress - p(strain))**2) / np.sum((stress -
stress.mean())**2)`: a plain rational when `SST ≠ 0`, the non-finite
marker when `SST = 0`. -/
def rsqOf (s t : List ℚ) : FVal :=
  if sstOf t = 0 then FVal.nan else FVal.val (1 - sseOf s t / sstOf t)

/-- The numeric core of the `result` dictionary built by
`fit_polynomial_to_experiment` (string metadata and the mechanical
property scalars copied through verbatim are not embedded; no embedded
field is ever `None`, so the final None-stripping of the dict does not
touch them). -/
structure FitRecord where
  coefficients : ℚ × ℚ
  r_squared : FVal
  data_points : ℕ
  strain_range : ℚ × ℚ
  stress_range : ℚ × ℚ
  fracture_detected : Bool
  max_stress : ℚ
  trim : TrimInfo
deriving DecidableEq

/-- `fit_polynomial_to_experiment(data, experiment_id)` for one
experiment: `None` when extraction fails, when the trimmed curve has
fewer than 10 points, or when the trimmed strain is constant — a
zero-width fit domain `[c, c]` makes numpy's `mapdomain` divide by
zero, the NaN abscissae make `Polynomial.fit`'s `lstsq` raise
`LinAlgError`, and the function's enclosing broad `except` turns that
into `None` (the second `if` branch here); otherwise the record with
the window-basis coefficients and `r_squared`. -/
def fitPoly (cfg : Config) (e : RawExperiment) : Option FitRecord :=
  match extract cfg e with
  | none => none
  | some (s, t, info) =>
    if s.length < 10 then none
    else if minOf s = maxOf s then none
    else
      some
        { coefficients := polyfitDeg1 s t
          r_squared := rsqOf s t
          data_points := s.length
          strain_range := (minOf s, maxOf s)
          stress_range := (minOf t, maxOf t)
          fracture_detected := info.fracture_detected
          max_stress := info.max_stress
          trim := info }

/-! ## OutlierAnalyzer
(`analyse_outliers.py`, class `OutlierAnalyzer`).  A group's view of one
numeric column is a `List (Option ℚ)`: one entry per experiment row,
`none` for a missing (NaN) value — what `group_df[column]` holds. -/

/-- Sample variance with divisor `n - 1`, the square of
`pandas.Series.std()` (default `ddof=1`). -/
def svar (l : List ℚ) : ℚ :=
  ((l.map (fun x => (x - mean l) ^ 2)).sum) / ((l.length : ℚ) - 1)

/-- `pandas.Series.median()`: middle element of the sorted values, or
the average of the two middle elements for an even count. -/
def medianOf (l : List ℚ) : ℚ :=
  let s := l.mergeSort (fun a b => a ≤ b)
  if l.length % 2 = 1 then s.getD (l.length / 2) 0
  else (s.getD (l.length / 2 - 1) 0 + s.getD (l.length / 2) 0) / 2

/-- The statistics dictionary of `calculate_statistics_for_group`,
computed on the column's non-missing values.  `std` is
`sqrt(svar)` — irrational in general, so the variance is stored and
`stdOf` below derives the standard deviation; the `sigma_k_low/high`
entries are `mean ∓ k*std`, recovered by `sigmaLow`/`sigmaHigh`. -/
structure GStats where
  count : ℕ
  mean : ℚ
  svar : ℚ
  vmin : ℚ
  vmax : ℚ
  median : ℚ
deriving DecidableEq

/-- `calculate_statistics_for_group(group_df, column)` on the non-missing
values of a column (the `values.dropna()` result). -/
def groupStats (v : List ℚ) : GStats :=
  { count := v.length
    mean := mean v
    svar := svar v
    vmin := minOf v
    vmax := maxOf v
    median := medianOf v }

/-- `stats['std']`: the sample standard deviation `sqrt(svar)`. -/
noncomputable def stdOf (s : GStats) : ℝ := Real.sqrt s.svar

/-- `stats[f'sigma_{k}_low'] = mean - k*std`. -/
noncomputable def sigmaLow (s : GStats) (k : ℕ) : ℝ := s.mean - k * stdOf s

/-- `stats[f'sigma_{k}_high'] = mean + k*std`. -/
noncomputable def sigmaHigh (s : GStats) (k : ℕ) : ℝ := s.mean + k * stdOf s

/-- The comparison `value < sigma_k_low or value > sigma_k_high` of
`find_outliers_in_group`, in rational arithmetic: `x` exceeds
`mean ± k*sqrt(svar)` iff the signed difference is positive and its
square exceeds `k² * svar`.  Lemma `isOutlierB_iff` below proves this
Boolean equal to the script's square-root formulation. -/
def isOutlierB (s : GStats) (k : ℕ) (x : ℚ) : Bool :=
  decide (0 < s.mean - x ∧ (k : ℚ) ^ 2 * s.svar < (s.mean - x) ^ 2) ||
  decide (0 < x - s.mean ∧ (k : ℚ) ^ 2 * s.svar < (x - s.mean) ^ 2)

/-- `find_outliers_in_group(group_df, column, stats, sigma_level)`:
the rows with a non-missing value strictly outside the sigma band, in
row order.  The script then reorders them by descending absolute
deviation with `DataFrame.sort_values` (numpy's unstable quicksort);
that reordering permutes the rows and does not change membership, and
is not modelled. -/
def findOutliers (vals : List (Option ℚ)) (k : ℕ) : List ℚ :=
  let v := vals.filterMap id
  let s := groupStats v
  v.filter (fun x => isOutlierB s k x)

/-- The per-column part of `analyze_all_traits`: a group enters the
results only with at least 2 rows (`len(group_df) < 2: continue`), and
a column's statistics enter only when `stats is not None and
stats['count'] >= 2`.  Returns the (group rows, statistics) pairs that
are reported for one column. -/
def analyzeColumn (groups : List (List (Option ℚ))) :
    List (List (Option ℚ) × GStats) :=
  groups.filterMap (fun g =>
    if g.length < 2 then none
    else if (g.filterMap id).length < 2 then none
    else some (g, groupStats (g.filterMap id)))

/-- For `identify_outlier_experiments`: a group's trait analyses are the
per-trait outlier experiment-id lists (`outliers_{sigma}sigma` of each
entry of `group_data['traits']`); `countIn` is the tally
`experiment_outlier_count[exp_id]['count']`, one increment per trait
whose outlier list holds the experiment. -/
def countIn (g : List (List ℕ)) (e : ℕ) : ℕ :=
  (g.filter (fun tr => decide (e ∈ tr))).length

/-- One group's contribution to `identify_outlier_experiments`: groups
with no traits are skipped; the candidate experiments are those
appearing in some trait's outlier list (the keys of
`experiment_outlier_count`), and a candidate is reported when
`count / total_traits >= threshold`. -/
def reportedInGroup (g : List (List ℕ)) (thr : ℚ) : List ℕ :=
  if g.length = 0 then []
  else
    (g.flatten.dedup).filter
      (fun e => decide (thr ≤ (countIn g e : ℚ) / (g.length : ℚ)))

/-- `identify_outlier_experiments(results, sigma_level)`: the reported
experiments of every group, concatenated.  The script finally sorts the
rows by descending `outlier_percentage` (again `sort_values`), which
permutes rows without changing membership and is not modelled. -/
def identifyOutlierExperiments (results : List (List (List ℕ))) (thr : ℚ) :
    List ℕ :=
  results.flatMap (fun g => reportedInGroup g thr)

/-! ## Lemmas about cleaning (claim C10) -/

lemma cleanPairs_length_eq (a b : List (Option ℚ)) :
    (cleanPairs a b).1.length = (cleanPairs a b).2.length := by
  induction a generalizing b with
  | nil => simp [cleanPairs]
  | cons x xs ih =>
    cases b with
    | nil => simp [cleanPairs]
    | cons y ys =>
      cases x with
      | none => simpa [cleanPairs] using ih ys
      | some xv =>
        cases y with
        | none => simpa [cleanPairs] using ih ys
        | some yv => simpa [cleanPairs] using ih ys

lemma cleanPairs_take_min (a b : List (Option ℚ)) :
    cleanPairs a b =
      cleanPairs (a.take (min a.length b.length)) (b.take (min a.length b.length)) := by
  induction a generalizing b with
  | nil => simp [cleanPairs]
  | cons x xs ih =>
    cases b with
    | nil => simp [cleanPairs]
    | cons y ys =>
      have hmin : min (x :: xs).length (y :: ys).length =
          min xs.length ys.length + 1 := by
        simp [List.length_cons, Nat.succ_min_succ]
      cases x with
      | none =>
        rw [hmin]
        simpa [cleanPairs] using ih ys
      | some xv =>
        cases y with
        | none =>
          rw [hmin]
          simpa [cleanPairs] using ih ys
        | some yv =>
          rw [hmin]
          simp only [List.take_succ_cons, cleanPairs]
          rw [← ih ys]

lemma cleanPairs_fst_eq (a b : List (Option ℚ)) :
    (cleanPairs a b).1 =
      (a.zip b).filterMap (fun p =>
        match p with
        | (some x, some _) => some x
        | _ => none) := by
  induction a generalizing b with
  | nil => simp [cleanPairs]
  | cons x xs ih =>
    cases b with
    | nil => simp [cleanPairs]
    | cons y ys =>
      cases x with
      | none => simpa [cleanPairs, List.filterMap_cons] using ih ys
      | some xv =>
        cases y with
        | none => simpa [cleanPairs, List.filterMap_cons] using ih ys
        | some yv => simpa [cleanPairs, List.filterMap_cons] using ih ys

lemma cleanPairs_snd_eq (a b : List (Option ℚ)) :
    (cleanPairs a b).2 =
      (a.zip b).filterMap (fun p =>
        match p with
        | (some _, some y) => some y
        | _ => none) := by
  induction a generalizing b with
  | nil => simp [cleanPairs]
  | cons x xs ih =>
    cases b with
    | nil => simp [cleanPairs]
    | cons y ys =>
      cases x with
      | none => simpa [cleanPairs, List.filterMap_cons] using ih ys
      | some xv =>
        cases y with
        | none => simpa [cleanPairs, List.filterMap_cons] using ih ys
        | some yv => simpa [cleanPairs, List.filterMap_cons] using ih ys

/-- C10: extraction considers only indices up to the shorter raw array's
length (truncating both arrays there changes nothing), keeps exactly
the positions where both entries are non-null (the zip/filterMap
characterisations), and the two cleaned arrays always have equal
length; it is a total function, so no input errors. -/
theorem extraction_pairwise_clean (a b : List (Option ℚ)) :
    (cleanPairs a b).1.length = (cleanPairs a b).2.length ∧
    cleanPairs a b =
      cleanPairs (a.take (min a.length b.length)) (b.take (min a.length b.length)) ∧
    (cleanPairs a b).1 =
      (a.zip b).filterMap (fun p =>
        match p with
        | (some x, some _) => some x
        | _ => none) ∧
    (cleanPairs a b).2 =
      (a.zip b).filterMap (fun p =>
        match p with
        | (some _, some y) => some y
        | _ => none) :=
  ⟨cleanPairs_length_eq a b, cleanPairs_take_min a b,
   cleanPairs_fst_eq a b, cleanPairs_snd_eq a b⟩

/-! ## Claim C6: stop-at-max fracture detection -/

/-- C6: with at least `min_points + 10` samples (the guard under which
detection proceeds at all; below it the function returns `None`),
stop-at-max mode returns the index of the global maximum stress value:
the index is in range and every sample is bounded by the stress there
(it is `np.argmax`, the first occurrence of the maximum). -/
theorem stop_at_max_returns_argmax (cfg : Config) (stress : List ℚ)
    (hmode : cfg.stop_max_stress = true)
    (hlen : cfg.min_points + 10 ≤ stress.length) :
    detectFracture cfg stress = some (argmaxIdx stress) ∧
    argmaxIdx stress < stress.length ∧
    ∀ j, j < stress.length → stress.getD j 0 ≤ stress.getD (argmaxIdx stress) 0 := by
  have hne : stress ≠ [] := by
    intro h
    rw [h] at hlen
    simp at hlen
  have hmem : maxOf stress ∈ stress := maxOf_mem hne
  have hidx : argmaxIdx stress < stress.length := firstIdxOf_lt_length hmem
  have hval : stress.getD (argmaxIdx stress) 0 = maxOf stress := getD_firstIdxOf hmem
  refine ⟨?_, hidx, ?_⟩
  · simp [detectFracture, Nat.not_lt.mpr hlen, hmode]
  · intro j hj
    rw [hval]
    exact le_maxOf (getD_mem_of_lt hj)

/-- Stop-at-max configuration used by the C6 witness. -/
def cfgStop : Config := { stop_max_stress := true, drop_threshold := 9/10, min_points := 1 }

/-- Stress curve used by the C6 witness. -/
def stressW6 : List ℚ := [0, 1, 2, 3, 10, 5, 4, 3, 2, 1, 0]

theorem stop_at_max_returns_argmax_witness :
    detectFracture cfgStop stressW6 = some (argmaxIdx stressW6) ∧
    argmaxIdx stressW6 < stressW6.length ∧
    ∀ j, j < stressW6.length →
      stressW6.getD j 0 ≤ stressW6.getD (argmaxIdx stressW6) 0 :=
  stop_at_max_returns_argmax cfgStop stressW6 rfl (by decide)

/-! ## Claim C7: the 10-point floor -/

lemma trimCurve_fst_length_le {cfg : Config} {u v s t : List ℚ} {info : TrimInfo}
    (h : trimCurve cfg u v = some (s, t, info)) : s.length ≤ u.length := by
  simp only [trimCurve] at h
  split at h
  · cases h
  · split at h
    · cases h
    · obtain ⟨h1, h2, h3⟩ : _ ∧ _ ∧ _ := by simpa using h
      rw [← h1]
      simp only [List.length_drop, List.length_take]
      omega

lemma fitPoly_isSome_iff (cfg : Config) (e : RawExperiment) :
    (fitPoly cfg e).isSome = true ↔
      10 ≤ (trimmedStrain cfg e).length ∧
      minOf (trimmedStrain cfg e) ≠ maxOf (trimmedStrain cfg e) := by
  rcases h : extract cfg e with - | ⟨s, t, info⟩
  · simp [fitPoly, trimmedStrain, h]
  · rw [fitPoly, trimmedStrain, h]
    dsimp only
    by_cases h1 : s.length < 10
    · rw [if_pos h1]
      simp only [Option.isSome_none, Bool.false_eq_true, false_iff, not_and]
      intro h2
      omega
    · rw [if_neg h1]
      by_cases h2 : minOf s = maxOf s
      · rw [if_pos h2]
        simp only [Option.isSome_none, Bool.false_eq_true, false_iff, not_and]
        exact fun _ hne => hne h2
      · rw [if_neg h2]
        simp only [Option.isSome_some, true_iff]
        exact ⟨by omega, h2⟩

lemma trimmedStrain_length_le_clean (cfg : Config) (e : RawExperiment) :
    (trimmedStrain cfg e).length ≤ (cleanPairs e.strainRaw e.stressRaw).1.length := by
  rcases h : extract cfg e with - | ⟨s, t, info⟩
  · simp [trimmedStrain, h]
  · rw [trimmedStrain, h]
    rw [extract] at h
    split at h
    · cases h
    · exact trimCurve_fst_length_le h

/-- Drop-threshold configuration (threshold 0.5, `min_points` 1) shared
by the concrete inputs of claims C2, C3 and C7. -/
def cfgDrop : Config := { stop_max_stress := false, drop_threshold := 1/2, min_points := 1 }

/-- C7 counterexample strain: 11 valid pairs, but the minimal-|strain|
index is 2, so trimming discards two leading points. -/
def strainC7 : List (Option ℚ) :=
  [some 3, some 2, some 0, some 1, some 2, some 3, some 4, some 5, some 6, some 7, some 8]

/-- C7 counterexample stress: strictly rising after index 2, so no drop
below `max*(1-0.5)` is found and the curve is kept to its end. -/
def stressC7 : List (Option ℚ) :=
  [some 0, some 0, some 0, some 1, some 2, some 3, some 4, some 5, some 6, some 7, some 8]

/-- The C7 counterexample experiment. -/
def expC7 : RawExperiment := { strainRaw := strainC7, stressRaw := stressC7 }

/-- C7 counterexample: this experiment has 11 valid pairs after pairwise
null removal — at least 10 — yet `fit_polynomial_to_experiment` skips
it, because the 10-point floor is applied to the trimmed curve (here 9
points, the zero-strain index being 2), not to the post-cleaning pair
count as the claim states. -/
theorem ten_point_floor_post_trim_cex :
    (cleanPairs strainC7 stressC7).1.length = 11 ∧ fitPoly cfgDrop expC7 = none := by
  set_option maxRecDepth 4000 in
  norm_num [fitPoly, extract, expC7, strainC7, stressC7, cleanPairs, trimCurve, cfgDrop,
    argminAbsIdx, argmaxIdx, detectFracture, maxOf, minOf, List.foldl, max_def, min_def,
    firstIdxOf, List.getD, firstBelow, List.drop, List.take]

/-- C7 amended: the 10-point floor is applied to the trimmed curve, not
to the post-cleaning pair count — an experiment with fewer than 10
trimmed samples is skipped, and one with 10 or more trimmed samples is
not skipped on that ground: a record is then produced unless the one
remaining skip fires, the caught `LinAlgError` of a constant trimmed
strain (the iff names both conditions exhaustively).  Since the trimmed
curve is never longer than the cleaned one, fewer than 10 valid pairs
still implies a skip, but an experiment with 10 or more valid pairs is
skipped whenever trimming leaves fewer than 10 points. -/
theorem ten_point_floor_post_trim (cfg : Config) (e : RawExperiment) :
    ((fitPoly cfg e).isSome = true ↔
      10 ≤ (trimmedStrain cfg e).length ∧
      minOf (trimmedStrain cfg e) ≠ maxOf (trimmedStrain cfg e)) ∧
    (trimmedStrain cfg e).length ≤ (cleanPairs e.strainRaw e.stressRaw).1.length :=
  ⟨fitPoly_isSome_iff cfg e, trimmedStrain_length_le_clean cfg e⟩

/-! ## Claim C2: the end-to-end drop-threshold trim example -/

/-- The claim's strain curve 0, 0.1, …, 1.0. -/
def strainC2 : List ℚ := [0, 1/10, 2/10, 3/10, 4/10, 5/10, 6/10, 7/10, 8/10, 9/10, 1]

/-- The claim's stress curve. -/
def stressC2 : List ℚ := [0, 10, 20, 30, 25, 5, 4, 3, 2, 1, 0]

/-- C2 counterexample: on the claim's curve the fracture is indeed
detected at index 5, but the trimmed curve has 5 points — indices 0
through 4 — not the 6 points (indices 0 through 5 inclusive) the claim
states: the Python slice `strain[zero_strain_idx:fracture_idx]`
excludes the fracture index, so the point `strain=0.5, stress=5` is not
in the trimmed curve. -/
theorem trim_excludes_fracture_index_cex :
    detectFracture cfgDrop stressC2 = some 5 ∧
    (trimCurve cfgDrop strainC2 stressC2).map (fun r => r.1.length) = some 5 ∧
    (trimCurve cfgDrop strainC2 stressC2).map (fun r => decide ((1/2 : ℚ) ∈ r.1)) =
      some false := by
  set_option maxRecDepth 4000 in
  norm_num [trimCurve, cfgDrop, strainC2, stressC2, argminAbsIdx, argmaxIdx, detectFracture,
    maxOf, minOf, List.foldl, max_def, min_def, firstIdxOf, List.getD, firstBelow,
    List.drop, List.take]

/-- C2 amended: fracture at index 5 (max stress 30 at index 3; first
index after it with stress < 15 is 5), and the trimmed curve is exactly
the points at indices 0 through 4 — the slice runs from the zero-strain
index up to, excluding, the fracture index. -/
theorem trim_excludes_fracture_index :
    detectFracture cfgDrop stressC2 = some 5 ∧
    trimCurve cfgDrop strainC2 stressC2 =
      some ([0, 1/10, 2/10, 3/10, 4/10], [0, 10, 20, 30, 25],
        { original_points := 11, trimmed_points := 5, zero_strain_idx := 0,
          fracture_idx := some 5, fracture_detected := true,
          strain_range := (0, 4/10), stress_range := (0, 30), max_stress := 30 }) := by
  set_option maxRecDepth 4000 in
  norm_num [trimCurve, cfgDrop, strainC2, stressC2, argminAbsIdx, argmaxIdx, detectFracture,
    maxOf, minOf, List.foldl, max_def, min_def, firstIdxOf, List.getD, firstBelow,
    List.drop, List.take]

/-! ## Claim C1: the degree-1 fit example -/

/-- C1 counterexample: `Polynomial.fit([0,1,2,3], [0,2,4,6], 1)` is
computed on the domain `[0,3]` mapped onto the window `[-1,1]`, and the
script stores `p.coef` — the window-basis coefficients.  These are
exactly (3, 3), not approximately [0, 2]: the constant coefficient is
at distance 3 from the claimed 0. -/
theorem fit_window_coefficients_cex :
    polyfitDeg1 [0, 1, 2, 3] [0, 2, 4, 6] = (3, 3) ∧
    3 ≤ |(polyfitDeg1 [0, 1, 2, 3] [0, 2, 4, 6]).1 - 0| := by
  norm_num [polyfitDeg1, domMap, mean, minOf, maxOf, List.foldl, max_def, min_def,
    List.zip, List.zipWith]

/-- C1 amended: the stored `polynomial_coefficients` for this fit are
[3, 3] — ascending degree in numpy's scaled window variable (the
original-variable polynomial 2·strain reads 3 + 3·w after mapping
strain ∈ [0,3] to w ∈ [-1,1], and the code stores `p.coef` without
converting back) — and `r_squared` is exactly 1. -/
theorem fit_window_coefficients :
    polyfitDeg1 [0, 1, 2, 3] [0, 2, 4, 6] = (3, 3) ∧
    rsqOf [0, 1, 2, 3] [0, 2, 4, 6] = FVal.val 1 := by
  norm_num [rsqOf, sstOf, sseOf, predict, polyfitDeg1, domMap, mean, minOf, maxOf,
    List.foldl, max_def, min_def, List.zip, List.zipWith]

/-! ## Claim C3: zero-variance stress (SST = 0) -/

/-- C3 concrete input: strain 0..10, all valid. -/
def strainC3 : List (Option ℚ) :=
  [some 0, some 1, some 2, some 3, some 4, some 5, some 6, some 7, some 8, some 9, some 10]

/-- C3 concrete input: constant stress 7, so the trimmed stress values
all equal their mean and SST is zero. -/
def stressC3 : List (Option ℚ) :=
  [some 7, some 7, some 7, some 7, some 7, some 7, some 7, some 7, some 7, some 7, some 7]

/-- The C3 experiment. -/
def expC3 : RawExperiment := { strainRaw := strainC3, stressRaw := stressC3 }

lemma extractC3_eval : extract cfgDrop expC3 =
    some ([0, 1, 2, 3, 4, 5, 6, 7, 8, 9, 10], [7, 7, 7, 7, 7, 7, 7, 7, 7, 7, 7],
      { original_points := 11, trimmed_points := 11, zero_strain_idx := 0,
        fracture_idx := none, fracture_detected := false,
        strain_range := (0, 10), stress_range := (7, 7), max_stress := 7 }) := by
  set_option maxRecDepth 4000 in
  norm_num [extract, expC3, strainC3, stressC3, cleanPairs, trimCurve, cfgDrop,
    argminAbsIdx, argmaxIdx, detectFracture, maxOf, minOf, List.foldl, max_def, min_def,
    firstIdxOf, List.getD, firstBelow, List.drop, List.take]

/-- C3 counterexample: an experiment whose trimmed stress values all
equal their mean (SST = 0) is NOT skipped — no DegenerateFit error
exists in the code; the float division by zero in `r_squared` only
emits a numpy warning, and a record is produced. -/
theorem zero_sst_record_produced_cex :
    sstOf [7, 7, 7, 7, 7, 7, 7, 7, 7, 7, 7] = 0 ∧
    (fitPoly cfgDrop expC3).isSome = true := by
  constructor
  · norm_num [sstOf, mean]
  · rw [fitPoly, extractC3_eval]
    dsimp only
    rw [if_neg (by norm_num),
      if_neg (by norm_num [minOf, maxOf, List.foldl, min_def, max_def])]
    rfl

/-- C3 amended: for every experiment whose extraction succeeds with at
least 10 trimmed points, a non-degenerate strain range (numpy's domain
map needs `x.min() ≠ x.max()`), and trimmed stress values all equal to
their mean (SST = 0), the fit does not fail: a record is produced, and
its `r_squared` is the non-finite float of the division by zero
(`FVal.nan`), not a DegenerateFit skip. -/
theorem zero_sst_gives_nan_rsq (cfg : Config) (e : RawExperiment)
    (s t : List ℚ) (info : TrimInfo)
    (hex : extract cfg e = some (s, t, info))
    (hlen : 10 ≤ s.length)
    (hs : minOf s ≠ maxOf s)
    (hconst : ∀ y ∈ t, y = mean t) :
    (∃ r, fitPoly cfg e = some r ∧ r.r_squared = FVal.nan) ∧
    rsqOf s t = FVal.nan := by
  have hsst : sstOf t = 0 := by
    apply List.sum_eq_zero
    intro x hx
    rcases List.mem_map.mp hx with ⟨y, hy, rfl⟩
    rw [hconst y hy]
    ring
  have hr : rsqOf s t = FVal.nan := by rw [rsqOf, if_pos hsst]
  have hfit : fitPoly cfg e =
      some
        { coefficients := polyfitDeg1 s t
          r_squared := rsqOf s t
          data_points := s.length
          strain_range := (minOf s, maxOf s)
          stress_range := (minOf t, maxOf t)
          fracture_detected := info.fracture_detected
          max_stress := info.max_stress
          trim := info } := by
    rw [fitPoly, hex]
    dsimp only
    rw [if_neg (by omega), if_neg hs]
  exact ⟨⟨_, hfit, by simpa using hr⟩, hr⟩

theorem zero_sst_gives_nan_rsq_witness :
    (∃ r, fitPoly cfgDrop expC3 = some r ∧ r.r_squared = FVal.nan) ∧
    rsqOf [0, 1, 2, 3, 4, 5, 6, 7, 8, 9, 10] [7, 7, 7, 7, 7, 7, 7, 7, 7, 7, 7] =
      FVal.nan :=
  zero_sst_gives_nan_rsq cfgDrop expC3 _ _ _ extractC3_eval
    (by norm_num)
    (by norm_num [minOf, maxOf, List.foldl, min_def, max_def])
    (by
      intro y hy
      have hm : mean [7, 7, 7, 7, 7, 7, 7, 7, 7, 7, 7] = (7 : ℚ) := by norm_num [mean]
      rw [hm]
      simpa using hy)

/-! ## Claim C5: strict sigma-band comparison -/

lemma lt_add_mul_sqrt_iff (m y q c : ℝ) (hc : 0 ≤ c) :
    m + c * Real.sqrt q < y ↔ 0 < y - m ∧ c ^ 2 * q < (y - m) ^ 2 := by
  have hs : Real.sqrt (c ^ 2 * q) = c * Real.sqrt q := by
    rw [Real.sqrt_mul (by positivity), Real.sqrt_sq hc]
  constructor
  · intro h
    have hnn : 0 ≤ c * Real.sqrt q := by
      rw [← hs]
      exact Real.sqrt_nonneg _
    have hpos : 0 < y - m := by linarith
    refine ⟨hpos, ?_⟩
    have h2 : Real.sqrt (c ^ 2 * q) < y - m := by rw [hs]; linarith
    exact (Real.sqrt_lt' hpos).mp h2
  · rintro ⟨hpos, h2⟩
    have h3 : Real.sqrt (c ^ 2 * q) < y - m := (Real.sqrt_lt' hpos).mpr h2
    rw [hs] at h3
    linarith

/-- The rational Boolean of `isOutlierB` agrees with the script's
comparison against `mean ± k*std`, `std = sqrt(svar)`. -/
lemma isOutlierB_iff (s : GStats) (k : ℕ) (x : ℚ) :
    isOutlierB s k x = true ↔
      ((x : ℝ) < sigmaLow s k ∨ sigmaHigh s k < (x : ℝ)) := by
  have hk : (0 : ℝ) ≤ (k : ℝ) := Nat.cast_nonneg k
  have hhigh : sigmaHigh s k < (x : ℝ) ↔
      0 < x - s.mean ∧ (k : ℚ) ^ 2 * s.svar < (x - s.mean) ^ 2 := by
    rw [sigmaHigh, stdOf, lt_add_mul_sqrt_iff _ _ _ _ hk]
    constructor
    · rintro ⟨h1, h2⟩
      exact ⟨by exact_mod_cast h1, by exact_mod_cast h2⟩
    · rintro ⟨h1, h2⟩
      exact ⟨by exact_mod_cast h1, by exact_mod_cast h2⟩
  have hlow : (x : ℝ) < sigmaLow s k ↔
      0 < s.mean - x ∧ (k : ℚ) ^ 2 * s.svar < (s.mean - x) ^ 2 := by
    rw [sigmaLow, stdOf, lt_sub_iff_add_lt,
      lt_add_mul_sqrt_iff _ _ _ _ hk]
    constructor
    · rintro ⟨h1, h2⟩
      exact ⟨by exact_mod_cast h1, by exact_mod_cast h2⟩
    · rintro ⟨h1, h2⟩
      exact ⟨by exact_mod_cast h1, by exact_mod_cast h2⟩
  rw [isOutlierB]
  simp only [Bool.or_eq_true, decide_eq_true_eq]
  rw [hlow, hhigh]

/-- C5: in a group column with at least two non-missing values (the
regime in which `find_outliers_in_group` is invoked), a non-missing
value exactly on the band edge `mean ± k*std` is not flagged, and a
value strictly outside the band is flagged — the comparison is strict
at both edges. -/
theorem sigma_band_strict (vals : List (Option ℚ)) (k : ℕ) (v : ℚ)
    (hv : some v ∈ vals)
    (_hc : 2 ≤ (vals.filterMap id).length) :
    (((v : ℝ) = sigmaHigh (groupStats (vals.filterMap id)) k ∨
      (v : ℝ) = sigmaLow (groupStats (vals.filterMap id)) k) →
      v ∉ findOutliers vals k) ∧
    (((v : ℝ) < sigmaLow (groupStats (vals.filterMap id)) k ∨
      sigmaHigh (groupStats (vals.filterMap id)) k < (v : ℝ)) →
      v ∈ findOutliers vals k) := by
  have hmem : v ∈ vals.filterMap id := List.mem_filterMap.mpr ⟨some v, hv, rfl⟩
  have hfind : findOutliers vals k =
      (vals.filterMap id).filter
        (fun x => isOutlierB (groupStats (vals.filterMap id)) k x) := rfl
  have hstd : (0 : ℝ) ≤ stdOf (groupStats (vals.filterMap id)) := Real.sqrt_nonneg _
  have hband : sigmaLow (groupStats (vals.filterMap id)) k ≤
      sigmaHigh (groupStats (vals.filterMap id)) k := by
    rw [sigmaLow, sigmaHigh]
    have : (0 : ℝ) ≤ (k : ℝ) * stdOf (groupStats (vals.filterMap id)) :=
      mul_nonneg (Nat.cast_nonneg k) hstd
    linarith
  constructor
  · intro hedge hin
    rw [hfind] at hin
    have hb := (List.mem_filter.mp hin).2
    rw [isOutlierB_iff] at hb
    rcases hedge with he | he <;> rcases hb with hb | hb <;>
      (rw [he] at hb; linarith)
  · intro hout
    rw [hfind]
    refine List.mem_filter.mpr ⟨hmem, ?_⟩
    rw [isOutlierB_iff]
    exact hout

theorem sigma_band_strict_witness :
    (2 : ℚ) ∉ findOutliers [some 0, some 1, some 2] 1 ∧
    (4 : ℚ) ∈ findOutliers [some 0, some 0, some 0, some 4] 1 := by
  constructor
  · refine (sigma_band_strict [some 0, some 1, some 2] 1 2 (by simp) (by simp)).1
      (Or.inl ?_)
    have hfm : ([some 0, some 1, some 2] : List (Option ℚ)).filterMap id = [0, 1, 2] := by
      simp
    rw [hfm, sigmaHigh, stdOf]
    have hsv : (groupStats [(0 : ℚ), 1, 2]).svar = 1 := by norm_num [groupStats, svar, mean]
    have hmn : (groupStats [(0 : ℚ), 1, 2]).mean = 1 := by norm_num [groupStats, mean]
    rw [hsv, hmn]
    norm_num [Real.sqrt_one]
  · refine (sigma_band_strict [some 0, some 0, some 0, some 4] 1 4 (by simp) (by simp)).2
      (Or.inr ?_)
    have hfm : ([some 0, some 0, some 0, some 4] : List (Option ℚ)).filterMap id =
        [0, 0, 0, 4] := by simp
    rw [hfm, sigmaHigh, stdOf]
    have hsv : (groupStats [(0 : ℚ), 0, 0, 4]).svar = 4 := by norm_num [groupStats, svar, mean]
    have hmn : (groupStats [(0 : ℚ), 0, 0, 4]).mean = 1 := by norm_num [groupStats, mean]
    rw [hsv, hmn]
    have h4 : Real.sqrt ((4 : ℚ) : ℝ) = 2 := by
      rw [show ((4 : ℚ) : ℝ) = 2 ^ 2 by norm_num, Real.sqrt_sq (by norm_num)]
    rw [h4]
    norm_num

/-! ## Claim C8: the 2-sample floor and the sample standard deviation -/

lemma svar_pair (a b : ℚ) : svar [a, b] = (a - b) ^ 2 / 2 := by
  rw [svar]
  norm_num [mean]
  field_simp
  ring

/-- C8: every (group, statistics) pair reported for a column comes from
a group with at least 2 experiments whose column has at least 2
non-missing values — a group of size 1 never appears — and the reported
statistics use the sample standard deviation with divisor n − 1: for a
two-value column [a, b], mean = (a + b)/2 and std = |a − b| / √2. -/
theorem group_stats_floor_and_sample_std (groups : List (List (Option ℚ)))
    (p : List (Option ℚ) × GStats) (hp : p ∈ analyzeColumn groups) (a b : ℚ) :
    (2 ≤ p.1.length ∧ 2 ≤ p.2.count) ∧
    (groupStats [a, b]).mean = (a + b) / 2 ∧
    stdOf (groupStats [a, b]) = |(a : ℝ) - (b : ℝ)| / Real.sqrt 2 := by
  refine ⟨?_, ?_, ?_⟩
  · rcases List.mem_filterMap.mp hp with ⟨g, hg, hfg⟩
    by_cases h1 : g.length < 2
    · rw [if_pos h1] at hfg
      cases hfg
    · rw [if_neg h1] at hfg
      by_cases h2 : (g.filterMap id).length < 2
      · rw [if_pos h2] at hfg
        cases hfg
      · rw [if_neg h2] at hfg
        have hpe : p = (g, groupStats (g.filterMap id)) := (Option.some.inj hfg).symm
        subst hpe
        constructor
        · show 2 ≤ g.length
          omega
        · show 2 ≤ (g.filterMap id).length
          omega
  · norm_num [groupStats, mean]
  · rw [stdOf]
    have hsv : (groupStats [a, b]).svar = (a - b) ^ 2 / 2 := svar_pair a b
    rw [hsv]
    have hc : (((a - b) ^ 2 / 2 : ℚ) : ℝ) = ((a : ℝ) - (b : ℝ)) ^ 2 / 2 := by
      push_cast
      ring
    rw [hc, Real.sqrt_div (sq_nonneg _) 2, Real.sqrt_sq_eq_abs]

theorem group_stats_floor_and_sample_std_witness :
    (2 ≤ ([some (1 : ℚ), some 2] : List (Option ℚ)).length ∧
      2 ≤ (groupStats [(1 : ℚ), 2]).count) ∧
    (groupStats [(1 : ℚ), 3]).mean = (1 + 3) / 2 ∧
    stdOf (groupStats [(1 : ℚ), 3]) = |(1 : ℝ) - (3 : ℝ)| / Real.sqrt 2 := by
  have h := group_stats_floor_and_sample_std [[some 0], [some 1, some 2]]
    ([some 1, some 2], groupStats [(1 : ℚ), 2])
    (by simp [analyzeColumn]) 1 3
  simpa using h

/-! ## Claim C4: the outlier-experiment trait-ratio threshold -/

lemma mem_reportedInGroup_iff (g : List (List ℕ)) (thr : ℚ) (e : ℕ)
    (he : e ∈ g.flatten) :
    e ∈ reportedInGroup g thr ↔ thr ≤ (countIn g e : ℚ) / (g.length : ℚ) := by
  have hne : g ≠ [] := by
    rintro rfl
    simp at he
  have hlen : ¬ g.length = 0 := fun h => hne (List.length_eq_zero.mp h)
  rw [reportedInGroup, if_neg hlen, List.mem_filter]
  simp only [decide_eq_true_eq]
  constructor
  · rintro ⟨-, h⟩
    exact h
  · intro h
    exact ⟨List.mem_dedup.mpr he, h⟩

/-- C4: an experiment appearing in at least one trait's outlier list of
its group (only such experiments enter `experiment_outlier_count`) is
reported exactly when its outlier-trait count divided by the group's
evaluated-trait total reaches the threshold (`>=`, not `>`); the global
report is the per-group reports concatenated; and in particular with 10
traits and exactly 3 outlier traits, threshold 0.30 includes the
experiment and threshold 0.31 excludes it. -/
theorem outlier_experiment_threshold (rs : List (List (List ℕ)))
    (g : List (List ℕ)) (thr : ℚ) (e : ℕ) (he : e ∈ g.flatten) :
    (e ∈ reportedInGroup g thr ↔ thr ≤ (countIn g e : ℚ) / (g.length : ℚ)) ∧
    (e ∈ identifyOutlierExperiments rs thr ↔
      ∃ g2 ∈ rs, e ∈ reportedInGroup g2 thr) ∧
    (g.length = 10 → countIn g e = 3 →
      e ∈ reportedInGroup g (30/100) ∧ e ∉ reportedInGroup g (31/100)) := by
  refine ⟨mem_reportedInGroup_iff g thr e he, ?_, ?_⟩
  · rw [identifyOutlierExperiments]
    exact List.mem_flatMap
  · intro h10 h3
    constructor
    · rw [mem_reportedInGroup_iff g _ e he, h10, h3]
      norm_num
    · intro hmem
      rw [mem_reportedInGroup_iff g _ e he, h10, h3] at hmem
      norm_num at hmem

/-- A group with 10 evaluated traits in which experiment 1 is an outlier
on exactly 3 of them (experiment 2 on the other 7). -/
def gW4 : List (List ℕ) := [[1], [1], [1], [2], [2], [2], [2], [2], [2], [2]]

theorem outlier_experiment_threshold_witness :
    1 ∈ reportedInGroup gW4 (30/100) ∧ 1 ∉ reportedInGroup gW4 (31/100) :=
  (outlier_experiment_threshold [gW4] gW4 (30/100) 1 (by decide)).2.2
    (by decide) (by decide)
